import Mathlib

/-!
Verification of the `ai-connect` OAuth 2.0 + PKCE flow library.

This file shallowly embeds the parts of the Rust crate that the verified
properties are about: the PKCE pair construction (`src/pkce.rs`), the
authorization-URL parameter construction and token-exchange payloads
(`src/client.rs`), the callback parsing (`src/types.rs`), the token-response
schema (`src/types.rs`), and the local redirect-capture server
(`src/local_server/server.rs`).  Rust `HashMap<String, String>` values are
modelled as association lists with insert-overwrite semantics; machine
integers are modelled as `Nat` with explicit reductions mod 2^32 where the
SHA-256 compression function overflows.
-/

namespace AiConnect

/-! ## Association-list model of `HashMap<String, String>`

`insertParam` models `HashMap::insert`: it replaces the value of an existing
key and otherwise appends a fresh binding.  Iteration order of a Rust
`HashMap` is unspecified; all verified statements are order-insensitive
(key counts and lookups). -/

abbrev Params := List (String × String)

def insertParam : Params → String → String → Params
  | [], k, v => [(k, v)]
  | p :: t, k, v => if p.1 == k then (k, v) :: t else p :: insertParam t k v

/-- Model of a `for (k, v) in l { map.insert(k, v) }` loop. -/
def insertAll (m : Params) (l : Params) : Params :=
  l.foldl (fun acc kv => insertParam acc kv.1 kv.2) m

/-- Model of `HashMap::get`. -/
def lookupParam : Params → String → Option String
  | [], _ => none
  | p :: t, k => if p.1 == k then some p.2 else lookupParam t k

/-- The value the *last* binding of `k` in a plain pair list carries
(the value a left-to-right insertion loop leaves in the map). -/
def lookupLast : List (String × String) → String → Option String
  | [], _ => none
  | kv :: t, k =>
    match lookupLast t k with
    | some v => some v
    | none => if kv.1 == k then some kv.2 else none

/-- Number of bindings of key `k` in the model. -/
def countKey (m : Params) (k : String) : Nat :=
  (m.filter (fun p => p.1 == k)).length

def keysOf (m : Params) : List String := m.map Prod.fst

def KeysNodup (m : Params) : Prop := (keysOf m).Nodup

theorem lookupParam_insertParam_self (m : Params) (k v : String) :
    lookupParam (insertParam m k v) k = some v := by
  induction m with
  | nil => simp [insertParam, lookupParam]
  | cons p t ih =>
    by_cases h : p.1 = k
    · simp [insertParam, lookupParam, h]
    · simp [insertParam, lookupParam, h, ih]

theorem lookupParam_insertParam_other (m : Params) (k v k' : String) (h : k' ≠ k) :
    lookupParam (insertParam m k v) k' = lookupParam m k' := by
  induction m with
  | nil => simp [insertParam, lookupParam, Ne.symm h]
  | cons p t ih =>
    by_cases hp : p.1 = k
    · simp [insertParam, lookupParam, hp, Ne.symm h]
    · by_cases hp' : p.1 = k'
      · simp [insertParam, lookupParam, hp, hp', h]
      · simp [insertParam, lookupParam, hp, hp', ih]

theorem mem_keysOf_insertParam {a : String} (m : Params) (k v : String) :
    a ∈ keysOf (insertParam m k v) ↔ a ∈ keysOf m ∨ a = k := by
  induction m with
  | nil => simp [insertParam, keysOf]
  | cons p t ih =>
    by_cases hp : p.1 = k
    · simp only [insertParam, hp]
      simp [keysOf, hp]
      tauto
    · simp only [insertParam, hp]
      simp only [beq_iff_eq, hp, if_false]
      simp [keysOf] at ih ⊢
      tauto

theorem keysNodup_insertParam {m : Params} (h : KeysNodup m) (k v : String) :
    KeysNodup (insertParam m k v) := by
  induction m with
  | nil => simp [insertParam, KeysNodup, keysOf]
  | cons p t ih =>
    unfold KeysNodup keysOf at h
    simp only [List.map_cons, List.nodup_cons] at h
    by_cases hp : p.1 = k
    · unfold KeysNodup keysOf
      simp only [insertParam, hp]
      simp only [beq_self_eq_true, if_true, List.map_cons, List.nodup_cons]
      exact ⟨by rw [← hp]; exact h.1, h.2⟩
    · have ht := ih h.2
      unfold KeysNodup keysOf at ht ⊢
      simp only [insertParam, beq_iff_eq, hp, if_false, List.map_cons, List.nodup_cons]
      refine ⟨?_, ht⟩
      intro hc
      rcases (mem_keysOf_insertParam t k v).mp hc with hc' | hc'
      · exact h.1 hc'
      · exact hp hc'

theorem keysNodup_insertAll {m : Params} (h : KeysNodup m) (l : Params) :
    KeysNodup (insertAll m l) := by
  induction l generalizing m with
  | nil => exact h
  | cons kv t ih => exact ih (keysNodup_insertParam h kv.1 kv.2)

theorem lookupParam_insertAll (m : Params) (l : Params) (k : String) :
    lookupParam (insertAll m l) k =
      match lookupLast l k with
      | some v => some v
      | none => lookupParam m k := by
  induction l generalizing m with
  | nil => simp [insertAll, lookupLast]
  | cons kv t ih =>
    show lookupParam (insertAll (insertParam m kv.1 kv.2) t) k = _
    rw [ih]
    cases hlast : lookupLast t k with
    | some v => simp [lookupLast, hlast]
    | none =>
      by_cases hk : kv.1 = k
      · subst hk
        simp [lookupLast, hlast, lookupParam_insertParam_self]
      · simp [lookupLast, hlast, hk, lookupParam_insertParam_other m kv.1 kv.2 k
          (fun hc : k = kv.1 => hk hc.symm)]

theorem countKey_eq_zero {m : Params} {k : String} (h : k ∉ keysOf m) :
    countKey m k = 0 := by
  induction m with
  | nil => rfl
  | cons p t ih =>
    simp only [keysOf, List.map_cons, List.mem_cons] at h
    push_neg at h
    have hp : (p.1 == k) = false := beq_eq_false_iff_ne.mpr (fun hc => h.1 hc.symm)
    simp only [countKey, List.filter_cons, hp]
    exact ih (by simpa [keysOf] using h.2)

theorem countKey_of_nodup {m : Params} (h : KeysNodup m) (k : String) :
    countKey m k = if (lookupParam m k).isSome then 1 else 0 := by
  induction m with
  | nil => rfl
  | cons p t ih =>
    unfold KeysNodup keysOf at h
    simp only [List.map_cons, List.nodup_cons] at h
    by_cases hp : p.1 = k
    · have hz : countKey t k = 0 := countKey_eq_zero (by rw [← hp]; exact h.1)
      simp [countKey, lookupParam, List.filter_cons, hp] at hz ⊢
      simpa [countKey] using hz
    · simp only [countKey, lookupParam, List.filter_cons]
      simp only [beq_iff_eq, hp, if_false]
      exact ih h.2

/-! ## SHA-256 (the `sha2` crate call in `src/pkce.rs`)

Bytes are `Nat`s below 256 and 32-bit words are `Nat`s reduced mod `2^32`. -/

namespace Sha256

def w32 : Nat := 4294967296

def rotr (n x : Nat) : Nat := (x >>> n) ||| ((x <<< (32 - n)) % w32)

def kTable : List Nat :=
  [1116352408, 1899447441, 3049323471, 3921009573,
   961987163, 1508970993, 2453635748, 2870763221,
   3624381080, 310598401, 607225278, 1426881987,
   1925078388, 2162078206, 2614888103, 3248222580,
   3835390401, 4022224774, 264347078, 604807628,
   770255983, 1249150122, 1555081692, 1996064986,
   2554220882, 2821834349, 2952996808, 3210313671,
   3336571891, 3584528711, 113926993, 338241895,
   666307205, 773529912, 1294757372, 1396182291,
   1695183700, 1986661051, 2177026350, 2456956037,
   2730485921, 2820302411, 3259730800, 3345764771,
   3516065817, 3600352804, 4094571909, 275423344,
   430227734, 506948616, 659060556, 883997877,
   958139571, 1322822218, 1537002063, 1747873779,
   1955562222, 2024104815, 2227730452, 2361852424,
   2428436474, 2756734187, 3204031479, 3329325298]

/-- Big-endian byte serialization of `x` on `n` bytes. -/
def bytesBE (n x : Nat) : List Nat :=
  (List.range n).map (fun i => (x >>> (8 * (n - 1 - i))) % 256)

/-- SHA-256 padding: `0x80`, zeros, then the 64-bit big-endian bit length. -/
def pad (msg : List Nat) : List Nat :=
  let padZeros := (64 - (msg.length + 9) % 64) % 64
  msg ++ [0x80] ++ List.replicate padZeros 0 ++ bytesBE 8 (msg.length * 8)

/-- Big-endian bytes to 32-bit words, four at a time. -/
def toWords : List Nat → List Nat
  | b0 :: b1 :: b2 :: b3 :: rest =>
    ((b0 <<< 24) + (b1 <<< 16) + (b2 <<< 8) + b3) :: toWords rest
  | _ => []

/-- Split the word stream into 16-word blocks. -/
def chunk16 : List Nat → List (List Nat)
  | [] => []
  | w :: ws => ((w :: ws).take 16) :: chunk16 ((w :: ws).drop 16)
  termination_by l => l.length
  decreasing_by simp [List.length_drop]; omega

def smallSigma0 (x : Nat) : Nat := rotr 7 x ^^^ rotr 18 x ^^^ (x >>> 3)
def smallSigma1 (x : Nat) : Nat := rotr 17 x ^^^ rotr 19 x ^^^ (x >>> 10)
def bigSigma0 (x : Nat) : Nat := rotr 2 x ^^^ rotr 13 x ^^^ rotr 22 x
def bigSigma1 (x : Nat) : Nat := rotr 6 x ^^^ rotr 11 x ^^^ rotr 25 x

/-- Extend a 16-word block to the 64-word message schedule. -/
def buildW (block : List Nat) : List Nat :=
  (List.range 48).foldl
    (fun w j =>
      w ++ [(smallSigma1 (w.getD (j + 14) 0) + w.getD (j + 9) 0 +
             smallSigma0 (w.getD (j + 1) 0) + w.getD j 0) % w32])
    block

structure Digest8 where
  a : Nat
  b : Nat
  c : Nat
  d : Nat
  e : Nat
  f : Nat
  g : Nat
  h : Nat

def initial : Digest8 :=
  ⟨1779033703, 3144134277, 1013904242, 2773480762,
   1359893119, 2600822924, 528734635, 1541459225⟩

def round (st : Digest8) (kw : Nat × Nat) : Digest8 :=
  let ch := (st.e &&& st.f) ^^^ ((st.e ^^^ 0xffffffff) &&& st.g)
  let t1 := (st.h + bigSigma1 st.e + ch + kw.1 + kw.2) % w32
  let maj := (st.a &&& st.b) ^^^ (st.a &&& st.c) ^^^ (st.b &&& st.c)
  let t2 := (bigSigma0 st.a + maj) % w32
  ⟨(t1 + t2) % w32, st.a, st.b, st.c, (st.d + t1) % w32, st.e, st.f, st.g⟩

def processBlock (st : Digest8) (block : List Nat) : Digest8 :=
  let r := (kTable.zip (buildW block)).foldl round st
  ⟨(st.a + r.a) % w32, (st.b + r.b) % w32, (st.c + r.c) % w32, (st.d + r.d) % w32,
   (st.e + r.e) % w32, (st.f + r.f) % w32, (st.g + r.g) % w32, (st.h + r.h) % w32⟩

/-- SHA-256 of a byte string, as 32 bytes. -/
def hash (msg : List Nat) : List Nat :=
  let final := (chunk16 (toWords (pad msg))).foldl processBlock initial
  bytesBE 4 final.a ++ bytesBE 4 final.b ++ bytesBE 4 final.c ++ bytesBE 4 final.d ++
  bytesBE 4 final.e ++ bytesBE 4 final.f ++ bytesBE 4 final.g ++ bytesBE 4 final.h

end Sha256

/-! ## base64url without padding (`URL_SAFE_NO_PAD` of the `base64` crate) -/

def b64Alphabet : List Char :=
  "ABCDEFGHIJKLMNOPQRSTUVWXYZabcdefghijklmnopqrstuvwxyz0123456789-_".data

def b64Char (n : Nat) : Char := b64Alphabet.getD n 'A'

def b64urlChars : List Nat → List Char
  | [] => []
  | [b0] => [b64Char (b0 >>> 2), b64Char ((b0 % 4) <<< 4)]
  | [b0, b1] =>
    [b64Char (b0 >>> 2), b64Char (((b0 % 4) <<< 4) ||| (b1 >>> 4)),
     b64Char ((b1 % 16) <<< 2)]
  | b0 :: b1 :: b2 :: rest =>
    b64Char (b0 >>> 2) :: b64Char (((b0 % 4) <<< 4) ||| (b1 >>> 4)) ::
    b64Char (((b1 % 16) <<< 2) ||| (b2 >>> 6)) :: b64Char (b2 % 64) :: b64urlChars rest

def base64UrlNoPad (bytes : List Nat) : String := String.mk (b64urlChars bytes)

theorem b64Char_mem (n : Nat) : b64Char n ∈ b64Alphabet := by
  unfold b64Char
  by_cases h : n < b64Alphabet.length
  · rw [List.getD_eq_getElem _ _ h]
    exact List.getElem_mem h
  · rw [List.getD_eq_default _ _ (by omega)]
    decide

theorem b64urlChars_mem : ∀ (bs : List Nat), ∀ c ∈ b64urlChars bs, c ∈ b64Alphabet := by
  intro bs
  induction bs using b64urlChars.induct with
  | case1 => intro c hc; simp [b64urlChars] at hc
  | case2 b0 =>
    intro c hc
    simp only [b64urlChars, List.mem_cons, List.not_mem_nil, or_false] at hc
    rcases hc with h | h <;> (subst h; exact b64Char_mem _)
  | case3 b0 b1 =>
    intro c hc
    simp only [b64urlChars, List.mem_cons, List.not_mem_nil, or_false] at hc
    rcases hc with h | h | h <;> (subst h; exact b64Char_mem _)
  | case4 b0 b1 b2 rest ih =>
    intro c hc
    simp only [b64urlChars, List.mem_cons] at hc
    rcases hc with h | h | h | h | h
    · subst h; exact b64Char_mem _
    · subst h; exact b64Char_mem _
    · subst h; exact b64Char_mem _
    · subst h; exact b64Char_mem _
    · exact ih c h

/-! ## UTF-8 bytes of a string (Rust `str::as_bytes`) -/

def utf8Char (c : Char) : List Nat :=
  let n := c.toNat
  if n < 0x80 then [n]
  else if n < 0x800 then [0xc0 ||| (n >>> 6), 0x80 ||| (n &&& 0x3f)]
  else if n < 0x10000 then
    [0xe0 ||| (n >>> 12), 0x80 ||| ((n >>> 6) &&& 0x3f), 0x80 ||| (n &&& 0x3f)]
  else
    [0xf0 ||| (n >>> 18), 0x80 ||| ((n >>> 12) &&& 0x3f),
     0x80 ||| ((n >>> 6) &&& 0x3f), 0x80 ||| (n &&& 0x3f)]

def strBytes (s : String) : List Nat := (s.data.map utf8Char).flatten

/-! ## `PkcePair` (`src/pkce.rs`) -/

structure PkcePair where
  code_verifier : String
  code_challenge : String

/-- Model of `PkcePair::from_verifier`: keep the verifier verbatim, derive the
challenge as base64url-no-pad of SHA-256 of the verifier's bytes. -/
def PkcePair.from_verifier (v : String) : PkcePair :=
  { code_verifier := v, code_challenge := base64UrlNoPad (Sha256.hash (strBytes v)) }

/-- Model of `PkcePair::generate`: 32 random bytes (passed here as the `seed`
argument, standing for the value `OsRng` produced) are base64url-encoded
into the verifier, and the pair is finished by `from_verifier`. -/
def PkcePair.generate (seed : List Nat) : PkcePair :=
  PkcePair.from_verifier (base64UrlNoPad seed)

/-! ## Errors (`src/error.rs`)

Payload-carrying source variants that wrap foreign error types
(`std::io::Error`, `url::ParseError`, `reqwest::Error`) carry their display
string; `Duration` is carried as milliseconds. -/

inductive OAuthError where
  | Io (message : String)
  | OsRng (message : String)
  | UrlParse (message : String)
  | Http (message : String)
  | InvalidRedirectUri (message : String)
  | InvalidHeader (name value : String)
  | HttpStatus (status : Nat) (body : String)
  | InvalidResponse (message body : String)
  | MissingAuthorizationCode
  | StateMismatch (expected received : String)
  | LocalServerTimeout (timeout : Nat)
deriving DecidableEq

/-! ## Providers (`src/provider.rs`, `src/providers/*.rs`)

The `OAuthProvider` trait is modelled as a record of its methods; the field
defaults are the trait's default method bodies. -/

inductive TokenRequestFormat where
  | Json
  | Form
deriving DecidableEq

structure ProviderDescriptor where
  id : String
  authorize_url : String
  token_url : String
  default_scope : String
  authorize_params : List (String × String) := []
  token_params : List (String × String) := []
  token_request_format : TokenRequestFormat := .Json
  token_headers : List (String × String) := []

def anthropicProvider : ProviderDescriptor :=
  { id := "anthropic"
    authorize_url := "https://claude.ai/oauth/authorize"
    token_url := "https://console.anthropic.com/v1/oauth/token"
    default_scope := "org:create_api_key user:profile user:inference"
    authorize_params := [("code", "true")] }

/-- Model of `set_param` from `src/providers/openai.rs`: replace the value of the
first binding of `key` in place, else push a new binding. -/
def setParam : List (String × String) → String → String → List (String × String)
  | [], key, value => [(key, value)]
  | p :: t, key, value =>
    if p.1 == key then (p.1, value) :: t else p :: setParam t key value

def openAIDefaultOriginator : String := "codex_cli_rs"

def openAIBaseAuthorizeParams : List (String × String) :=
  [("id_token_add_organizations", "true"),
   ("codex_cli_simplified_flow", "true"),
   ("originator", openAIDefaultOriginator)]

def openAIProvider (originator : String) : ProviderDescriptor :=
  { id := "openai"
    authorize_url := "https://auth.openai.com/oauth/authorize"
    token_url := "https://auth.openai.com/oauth/token"
    default_scope := "openid profile email offline_access"
    authorize_params :=
      if originator != openAIDefaultOriginator then
        setParam openAIBaseAuthorizeParams "originator" originator
      else openAIBaseAuthorizeParams
    token_request_format := .Form
    token_headers := [("Accept", "application/json")] }

/-! ## Client configuration (`src/client.rs`) -/

structure OAuthClientConfig where
  client_id : String
  redirect_uri : String
  client_secret : Option String := none
  scope : Option String := none
  authorize_params : List (String × String) := []
  token_params : List (String × String) := []

/-! ## Callback parsing (`src/types.rs`) -/

structure AuthorizationResponse where
  code : String
  state : Option String
deriving DecidableEq

/-- Rust `str::split_once(c)`: split around the first occurrence of `c`. -/
def splitOnceChar (s : String) (c : Char) : Option (String × String) :=
  if c ∈ s.data then
    some (String.mk (s.data.takeWhile (fun x => x != c)),
          String.mk ((s.data.dropWhile (fun x => x != c)).tail))
  else none

def AuthorizationResponse.from_callback (code : String) (state : Option String) :
    AuthorizationResponse :=
  match state with
  | none =>
    match splitOnceChar code '#' with
    | some cs => { code := cs.1, state := some cs.2 }
    | none => { code := code, state := none }
  | some s => { code := code, state := some s }

/-- Model of `AuthorizationResponse::from_url` after URL parsing: the `url` crate's
`Url::parse` + `query_pairs()` is modelled by handing the decoded query
pairs directly to the scan loop of `from_url`. -/
def AuthorizationResponse.from_url_pairs (pairs : List (String × String)) :
    Except OAuthError AuthorizationResponse :=
  let found := pairs.foldl
    (fun (acc : Option String × Option String) kv =>
      if kv.1 == "code" then (some kv.2, acc.2)
      else if kv.1 == "state" then (acc.1, some kv.2)
      else acc)
    (none, none)
  match found.1 with
  | none => .error .MissingAuthorizationCode
  | some c => .ok (AuthorizationResponse.from_callback c found.2)

/-! ## Authorization URL construction (`OAuthClient::authorization_url_with_state`) -/

structure AuthorizationRequest where
  authorization_url : String
  pkce : PkcePair
  state : String
  scope : String

/-- The query parameters `authorization_url_with_state` accumulates in its
`HashMap` before appending them to the authorize URL: provider extras, then
config extras, then the seven fixed protocol fields — later inserts
overwrite earlier bindings of the same key. -/
def authorizationQueryPairs (p : ProviderDescriptor) (cfg : OAuthClientConfig)
    (pkce : PkcePair) (stateOpt : Option String) : Params :=
  let state := stateOpt.getD pkce.code_verifier
  let scope := cfg.scope.getD p.default_scope
  let m := insertAll (insertAll [] p.authorize_params) cfg.authorize_params
  let m := insertParam m "response_type" "code"
  let m := insertParam m "client_id" cfg.client_id
  let m := insertParam m "redirect_uri" cfg.redirect_uri
  let m := insertParam m "scope" scope
  let m := insertParam m "code_challenge" pkce.code_challenge
  let m := insertParam m "code_challenge_method" "S256"
  insertParam m "state" state

/-- Query-string form of a pair list (`url::Url::query_pairs_mut`'s
serializer, restricted to the characters the claims exercise). -/
def encodeQueryChar (c : Char) : List Char :=
  if c = ' ' then ['+']
  else if c.isAlphanum ∨ c = '-' ∨ c = '.' ∨ c = '_' ∨ c = '*' then [c]
  else
    let n := c.toNat
    ['%', (Nat.toDigits 16 (n / 16)).headD '0', (Nat.toDigits 16 (n % 16)).headD '0']

def renderQuery (q : Params) : String :=
  String.intercalate "&"
    (q.map (fun kv =>
      String.mk ((kv.1.data.map encodeQueryChar).flatten) ++ "=" ++
      String.mk ((kv.2.data.map encodeQueryChar).flatten)))

/-- Model of `OAuthClient::authorization_url_with_state`.  The fresh `PkcePair` the
Rust code draws from `OsRng` is passed in as `pkce`.  Both built-in
providers' authorize URLs carry no query of their own, so appending the
pairs after `?` models `query_pairs_mut().append_pair`. -/
def authorization_url_with_state (p : ProviderDescriptor) (cfg : OAuthClientConfig)
    (pkce : PkcePair) (stateOpt : Option String) : AuthorizationRequest :=
  let state := stateOpt.getD pkce.code_verifier
  let scope := cfg.scope.getD p.default_scope
  { authorization_url :=
      p.authorize_url ++ "?" ++ renderQuery (authorizationQueryPairs p cfg pkce stateOpt)
    pkce := pkce
    state := state
    scope := scope }

/-! ## Token exchange payloads (`OAuthClient::exchange_code`,
`OAuthClient::refresh_token`, `OAuthClient::send_token_request`) -/

/-- The payload `exchange_code` builds before calling `send_token_request`. -/
def exchangePayloadBase (cfg : OAuthClientConfig) (code verifier : String)
    (returnedState expectedState : Option String) : Params :=
  let m := insertParam [] "grant_type" "authorization_code"
  let m := insertParam m "code" code
  let m := insertParam m "client_id" cfg.client_id
  let m := insertParam m "redirect_uri" cfg.redirect_uri
  let m := insertParam m "code_verifier" verifier
  let m :=
    match cfg.client_secret with
    | some s => insertParam m "client_secret" s
    | none => m
  match (match returnedState with | some s => some s | none => expectedState) with
  | some s => insertParam m "state" s
  | none => m

/-- Model of `OAuthClient::exchange_code` up to the payload handed to
`send_token_request`: the state check, then the payload construction. -/
def exchange_code (cfg : OAuthClientConfig) (resp : AuthorizationResponse)
    (verifier : String) (expectedState : Option String) : Except OAuthError Params :=
  match expectedState, resp.state with
  | some e, some r =>
    if e ≠ r then .error (.StateMismatch e r)
    else .ok (exchangePayloadBase cfg resp.code verifier resp.state expectedState)
  | _, _ => .ok (exchangePayloadBase cfg resp.code verifier resp.state expectedState)

/-- The payload `refresh_token` builds before calling `send_token_request`. -/
def refreshPayloadBase (cfg : OAuthClientConfig) (refreshToken : String) : Params :=
  let m := insertParam [] "grant_type" "refresh_token"
  let m := insertParam m "refresh_token" refreshToken
  let m := insertParam m "client_id" cfg.client_id
  match cfg.client_secret with
  | some s => insertParam m "client_secret" s
  | none => m

/-- The overlay `send_token_request` performs on the payload it receives:
provider extra token params first, config extra token params second. -/
def send_token_payload (p : ProviderDescriptor) (cfg : OAuthClientConfig)
    (payload : Params) : Params :=
  insertAll (insertAll payload p.token_params) cfg.token_params

/-! ## JSON and the `TokenResponse` schema (`src/types.rs`)

`TokenResponse` derives `Serialize`/`Deserialize` with a
`#[serde(flatten)] extra: HashMap<String, Value>` catch-all.  The serde
semantics (an external crate) are modelled here: deserialization extracts
the five named fields and routes every other top-level field into `extra`;
serialization emits the named fields (absent options as `null`, since no
`skip_serializing_if` is declared) followed by the `extra` entries. -/

inductive Json where
  | null
  | bool (b : Bool)
  | num (n : Int)
  | str (s : String)
  | arr (elems : List Json)
  | obj (fields : List (String × Json))

structure TokenResponse where
  access_token : String
  refresh_token : Option String := none
  token_type : Option String := none
  scope : Option String := none
  expires_in : Option Nat := none
  extra : List (String × Json) := []

def tokenKnownFields : List String :=
  ["access_token", "refresh_token", "token_type", "scope", "expires_in"]

def lookupField (fields : List (String × Json)) (k : String) : Option Json :=
  (fields.find? (fun kv => kv.1 == k)).map (fun kv => kv.2)

def decodeOptString : Option Json → Except String (Option String)
  | none => .ok none
  | some .null => .ok none
  | some (.str s) => .ok (some s)
  | some _ => .error "invalid type"

def decodeOptNat : Option Json → Except String (Option Nat)
  | none => .ok none
  | some .null => .ok none
  | some (.num n) =>
    if 0 ≤ n then .ok (some n.toNat) else .error "invalid value: out of range"
  | some _ => .error "invalid type"

def tokenResponseFromJson : Json → Except String TokenResponse
  | .obj fields => do
    let tok ←
      match lookupField fields "access_token" with
      | some (.str s) => Except.ok s
      | some _ => Except.error "invalid type"
      | none => Except.error "missing field access_token"
    let rt ← decodeOptString (lookupField fields "refresh_token")
    let tt ← decodeOptString (lookupField fields "token_type")
    let sc ← decodeOptString (lookupField fields "scope")
    let ei ← decodeOptNat (lookupField fields "expires_in")
    Except.ok
      { access_token := tok, refresh_token := rt, token_type := tt, scope := sc,
        expires_in := ei,
        extra := fields.filter (fun kv => !(tokenKnownFields.contains kv.1)) }
  | _ => .error "invalid type: expected object"

def optStringJson : Option String → Json
  | some s => .str s
  | none => .null

def tokenResponseToJson (t : TokenResponse) : Json :=
  .obj
    ([("access_token", .str t.access_token),
      ("refresh_token", optStringJson t.refresh_token),
      ("token_type", optStringJson t.token_type),
      ("scope", optStringJson t.scope),
      ("expires_in", match t.expires_in with | some n => .num n | none => .null)] ++
     t.extra)

/-! ## A JSON text parser standing for `serde_json::from_str`

Integer-only numbers: the token schema carries no floating-point field, and
no verified statement depends on float parsing. -/

def isJsonWs (c : Char) : Bool := c == ' ' || c == '\t' || c == '\n' || c == '\r'

def skipWs : List Char → List Char
  | [] => []
  | c :: rest => if isJsonWs c then skipWs rest else c :: rest

def hexVal (c : Char) : Option Nat :=
  if '0' ≤ c ∧ c ≤ '9' then some (c.toNat - '0'.toNat)
  else if 'a' ≤ c ∧ c ≤ 'f' then some (c.toNat - 'a'.toNat + 10)
  else if 'A' ≤ c ∧ c ≤ 'F' then some (c.toNat - 'A'.toNat + 10)
  else none

def parseEscape : List Char → Except String (Char × List Char)
  | [] => .error "unexpected end of input"
  | 'u' :: h1 :: h2 :: h3 :: h4 :: r =>
    match hexVal h1, hexVal h2, hexVal h3, hexVal h4 with
    | some a, some b, some c, some d =>
      .ok (Char.ofNat (((a * 16 + b) * 16 + c) * 16 + d), r)
    | _, _, _, _ => .error "invalid escape"
  | 'u' :: _ => .error "invalid escape"
  | c :: r =>
    if c == '"' ∨ c == '\\' ∨ c == '/' then .ok (c, r)
    else if c == 'n' then .ok ('\n', r)
    else if c == 't' then .ok ('\t', r)
    else if c == 'r' then .ok ('\r', r)
    else if c == 'b' then .ok (Char.ofNat 8, r)
    else if c == 'f' then .ok (Char.ofNat 12, r)
    else .error "invalid escape"

def parseStringBody (fuel : Nat) : List Char → Except String (List Char × List Char)
  | [] => .error "unexpected end of string"
  | c :: rest =>
    match fuel with
    | 0 => .error "recursion limit exceeded"
    | fuel' + 1 =>
      if c == '"' then .ok ([], rest)
      else if c == '\\' then
        match parseEscape rest with
        | .error e => .error e
        | .ok (ch, r) =>
          match parseStringBody fuel' r with
          | .error e => .error e
          | .ok (s, r2) => .ok (ch :: s, r2)
      else
        match parseStringBody fuel' rest with
        | .error e => .error e
        | .ok (s, r2) => .ok (c :: s, r2)

def digitsToNat (ds : List Char) : Nat :=
  ds.foldl (fun acc c => acc * 10 + (c.toNat - '0'.toNat)) 0

def parseNumber (cs : List Char) : Except String (Json × List Char) :=
  let neg := cs.headD ' ' == '-'
  let body := if neg then cs.tail else cs
  let ds := body.takeWhile (fun c => c.isDigit)
  let rest := body.dropWhile (fun c => c.isDigit)
  if ds.isEmpty then .error "expected digits"
  else if ds.length > 1 ∧ ds.headD '0' = '0' then .error "invalid number"
  else if rest.headD ' ' == '.' ∨ rest.headD ' ' == 'e' ∨ rest.headD ' ' == 'E' then
    .error "float numbers not modelled"
  else
    let n : Int := Int.ofNat (digitsToNat ds)
    .ok (.num (if neg then -n else n), rest)

mutual

def parseValue : Nat → List Char → Except String (Json × List Char)
  | 0, _ => .error "recursion limit exceeded"
  | fuel + 1, cs =>
    match skipWs cs with
    | [] => .error "unexpected end of input"
    | 'n' :: 'u' :: 'l' :: 'l' :: r => .ok (.null, r)
    | 't' :: 'r' :: 'u' :: 'e' :: r => .ok (.bool true, r)
    | 'f' :: 'a' :: 'l' :: 's' :: 'e' :: r => .ok (.bool false, r)
    | '"' :: r =>
      match parseStringBody (r.length + 1) r with
      | .error e => .error e
      | .ok (s, rest) => .ok (.str (String.mk s), rest)
    | '[' :: r =>
      (match skipWs r with
       | ']' :: rest => .ok (.arr [], rest)
       | other => match parseElems fuel other with
         | .error e => .error e
         | .ok (xs, rest) => .ok (.arr xs, rest))
    | '{' :: r =>
      (match skipWs r with
       | '}' :: rest => .ok (.obj [], rest)
       | other => match parseMembers fuel other with
         | .error e => .error e
         | .ok (fs, rest) => .ok (.obj fs, rest))
    | other => parseNumber other

def parseElems : Nat → List Char → Except String (List Json × List Char)
  | 0, _ => .error "recursion limit exceeded"
  | fuel + 1, cs =>
    match parseValue fuel cs with
    | .error e => .error e
    | .ok (x, rest) =>
      match skipWs rest with
      | ',' :: r =>
        (match parseElems fuel r with
         | .error e => .error e
         | .ok (xs, rest2) => .ok (x :: xs, rest2))
      | ']' :: r => .ok ([x], r)
      | _ => .error "expected comma or bracket"

def parseMembers : Nat → List Char → Except String (List (String × Json) × List Char)
  | 0, _ => .error "recursion limit exceeded"
  | fuel + 1, cs =>
    match skipWs cs with
    | '"' :: r =>
      (match parseStringBody (r.length + 1) r with
       | .error e => .error e
       | .ok (k, rest) =>
         match skipWs rest with
         | ':' :: r2 =>
           (match parseValue fuel r2 with
            | .error e => .error e
            | .ok (v, rest2) =>
              match skipWs rest2 with
              | ',' :: r3 =>
                (match parseMembers fuel r3 with
                 | .error e => .error e
                 | .ok (fs, rest3) => .ok ((String.mk k, v) :: fs, rest3))
              | '}' :: r3 => .ok ([(String.mk k, v)], r3)
              | _ => .error "expected comma or brace")
         | _ => .error "expected colon")
    | _ => .error "key must be a string"

end

def parseJson (s : String) : Except String Json :=
  match parseValue (2 * s.length + 8) s.data with
  | .error e => .error e
  | .ok (j, rest) =>
    if (skipWs rest).isEmpty then .ok j else .error "trailing characters"

/-- Model of `serde_json::from_str::<TokenResponse>`. -/
def decodeTokenBody (body : String) : Except String TokenResponse :=
  match parseJson body with
  | .error e => .error e
  | .ok j => tokenResponseFromJson j

/-! ## Token-endpoint response handling (`OAuthClient::send_token_request`) -/

/-- Model of `reqwest::StatusCode::is_success`. -/
def is2xx (status : Nat) : Bool := decide (200 ≤ status) && decide (status ≤ 299)

/-- The tail of `send_token_request`, from the received status and body to
the returned result. -/
def send_token_request_result (status : Nat) (body : String) :
    Except OAuthError TokenResponse :=
  if is2xx status = false then .error (.HttpStatus status body)
  else
    match decodeTokenBody body with
    | .error m => .error (.InvalidResponse m body)
    | .ok t => .ok t

/-! ## Local redirect-capture server (`src/local_server/server.rs`)

`handle_request` reads at most 8192 bytes from the stream; the model takes
that read text as `req`.  Rust's `lines().next()` on a non-empty read always
yields a line, so the guarded `None` branch of `handle_request` is
unreachable and the empty read (`bytes == 0`) is the only silent case. -/

/-- Rust `str::lines().next()`: up to the first newline, dropping a
trailing carriage return. -/
def firstLineChars (s : String) : List Char :=
  let l := s.data.takeWhile (fun c => c != '\n')
  if l.getLast? = some '\r' then l.dropLast else l

/-- Rust `str::split_whitespace`, word accumulator pass. -/
def splitWsAux : List Char → List Char → List String
  | [], acc => if acc.isEmpty then [] else [String.mk acc.reverse]
  | c :: rest, acc =>
    if c.isWhitespace then
      if acc.isEmpty then splitWsAux rest [] else String.mk acc.reverse :: splitWsAux rest []
    else splitWsAux rest (c :: acc)

/-- Rust `str::split_whitespace`: maximal non-whitespace runs, no empties. -/
def splitWs (s : String) : List String := splitWsAux s.data []

def requestWords (req : String) : List String := splitWs (String.mk (firstLineChars req))

def reqMethod (req : String) : String := (requestWords req).getD 0 ""

def reqTarget (req : String) : String := (requestWords req).getD 1 ""

/-- Path component of `target.split_once('?').unwrap_or((target, ""))`. -/
def reqPath (req : String) : String :=
  ((splitOnceChar (reqTarget req) '?').getD (reqTarget req, "")).1

/-- Query component of `target.split_once('?').unwrap_or((target, ""))`. -/
def reqQuery (req : String) : String :=
  ((splitOnceChar (reqTarget req) '?').getD (reqTarget req, "")).2

/-- Percent-decoding as performed by the `url` crate's query-pair
iterator (ASCII-level model). -/
def percentDecode : List Char → List Char
  | [] => []
  | '%' :: h1 :: h2 :: rest =>
    (match hexVal h1, hexVal h2 with
     | some a, some b => Char.ofNat (16 * a + b) :: percentDecode rest
     | _, _ => '%' :: percentDecode (h1 :: h2 :: rest))
  | '+' :: rest => ' ' :: percentDecode rest
  | c :: rest => c :: percentDecode rest

/-- Split a character list on a separator character. -/
def splitOnChar (c : Char) : List Char → List (List Char)
  | [] => [[]]
  | x :: rest =>
    if x == c then [] :: splitOnChar c rest
    else
      match splitOnChar c rest with
      | s :: ss => (x :: s) :: ss
      | [] => [[x]]

/-- The decoded query pairs `Url::query_pairs()` yields for a raw query
string (the query `build_callback_url` glues onto the redirect URI). -/
def parseQueryPairs (q : String) : List (String × String) :=
  (((splitOnChar '&' q.data).map String.mk).filter (fun seg => seg != "")).map
    (fun seg =>
      match splitOnceChar seg '=' with
      | some kv => (String.mk (percentDecode kv.1.data), String.mk (percentDecode kv.2.data))
      | none => (String.mk (percentDecode seg.data), ""))

/-- Model of `RedirectTarget` (`src/local_server/target.rs`). -/
structure RedirectTarget where
  scheme : String
  host : String
  port : Nat
  path : String

/-- Model of `LocalServer::handle_request`: first component is the HTTP status line
written back (none for an empty read), second the control-flow outcome
(`Ok(None)` keeps the server listening). -/
def handle_request (t : RedirectTarget) (req : String) :
    Option String × Except OAuthError (Option AuthorizationResponse) :=
  if req = "" then (none, .ok none)
  else if reqMethod req != "GET" then (some "405 Method Not Allowed", .ok none)
  else if reqPath req != t.path then (some "404 Not Found", .ok none)
  else
    match AuthorizationResponse.from_url_pairs (parseQueryPairs (reqQuery req)) with
    | .ok r => (some "200 OK", .ok (some r))
    | .error .MissingAuthorizationCode => (some "400 Bad Request", .ok none)
    | .error e => (some "500 Internal Server Error", .error e)

/-- Model of `LocalServer::listen_blocking` (the `listen_with` path with no timeout),
run against the finite sequence of requests that arrive during the call;
`.ok none` means the loop is still parked on `accept`. -/
def listen_blocking (t : RedirectTarget) :
    List String → Except OAuthError (Option AuthorizationResponse)
  | [] => .ok none
  | r :: rest =>
    match (handle_request t r).2 with
    | .error e => .error e
    | .ok (some resp) => .ok (some resp)
    | .ok none => listen_blocking t rest

/-- What one non-blocking `listener.accept()` call observes. -/
inductive AcceptOutcome where
  | wouldBlock
  | conn (req : String)

/-- The `thread::sleep(Duration::from_millis(50))` cadence of
`listen_with_timeout`. -/
def pollIntervalMs : Nat := 50

/-- Model of `LocalServer::listen_with_timeout` (the `listen_with` path with a
configured timeout) over a discrete wall clock in milliseconds: time starts
at 0, the deadline is `timeout`, a `WouldBlock` accept sleeps one poll
interval, and connection handling is instantaneous.  `supply i` is what the
`i`-th accept call observes; `fuel` bounds the loop so the model is total,
and the second component is the wall-clock time at return. -/
def listen_poll (t : RedirectTarget) (timeout : Nat) (supply : Nat → AcceptOutcome) :
    Nat → Nat → Nat → Except OAuthError (Option AuthorizationResponse) × Nat
  | 0, now, _ => (.ok none, now)
  | fuel + 1, now, idx =>
    if timeout ≤ now then (.error (.LocalServerTimeout timeout), now)
    else
      match supply idx with
      | .wouldBlock => listen_poll t timeout supply fuel (now + pollIntervalMs) (idx + 1)
      | .conn req =>
        if timeout ≤ now then (.error (.LocalServerTimeout timeout), now)
        else
          match (handle_request t req).2 with
          | .error e => (.error e, now)
          | .ok (some resp) => (.ok (some resp), now)
          | .ok none => listen_poll t timeout supply fuel now (idx + 1)

/-! ## Helper lemmas about the callback parsers -/

theorem dropWhile_ne_mem {c : Char} :
    ∀ {l : List Char}, c ∈ l →
      l.dropWhile (fun x => x != c) = c :: (l.dropWhile (fun x => x != c)).tail := by
  intro l hmem
  induction l with
  | nil => simp at hmem
  | cons a l ih =>
    by_cases ha : a = c
    · subst ha
      simp [List.dropWhile_cons]
    · have hl : c ∈ l := by
        rcases List.mem_cons.mp hmem with h | h
        · exact absurd h.symm ha
        · exact h
      have hpred : (a != c) = true := by simp [ha]
      simp only [List.dropWhile_cons, hpred, if_true]
      exact ih hl

theorem not_mem_takeWhile_ne {c : Char} (l : List Char) :
    c ∉ l.takeWhile (fun x => x != c) := by
  intro hmem
  have := List.mem_takeWhile_imp hmem
  simp at this

theorem splitOnceChar_spec {s : String} {c : Char} (h : c ∈ s.data) :
    ∃ pre post, s.data = pre ++ c :: post ∧ c ∉ pre ∧
      splitOnceChar s c = some (String.mk pre, String.mk post) := by
  refine ⟨s.data.takeWhile (fun x => x != c), (s.data.dropWhile (fun x => x != c)).tail,
    ?_, not_mem_takeWhile_ne s.data, ?_⟩
  · conv_lhs => rw [← List.takeWhile_append_dropWhile (p := fun x => x != c) (l := s.data)]
    rw [← dropWhile_ne_mem h]
  · simp [splitOnceChar, h]

theorem splitOnceChar_eq_none {s : String} {c : Char} (h : c ∉ s.data) :
    splitOnceChar s c = none := by
  simp [splitOnceChar, h]

/-- The scan loop of `from_url` keeps the last binding of each key. -/
theorem from_url_scan (pairs : List (String × String)) (acc : Option String × Option String) :
    pairs.foldl
      (fun (acc : Option String × Option String) kv =>
        if kv.1 == "code" then (some kv.2, acc.2)
        else if kv.1 == "state" then (acc.1, some kv.2)
        else acc)
      acc =
    ((match lookupLast pairs "code" with | some v => some v | none => acc.1),
     (match lookupLast pairs "state" with | some v => some v | none => acc.2)) := by
  induction pairs generalizing acc with
  | nil => simp [lookupLast]
  | cons kv t ih =>
    rw [List.foldl_cons, ih]
    by_cases hc : kv.1 = "code" <;> by_cases hs : kv.1 = "state"
    · exact absurd (hc ▸ hs) (by decide)
    · cases hlc : lookupLast t "code" <;> cases hls : lookupLast t "state" <;>
        simp [lookupLast, hc, hs, hlc, hls]
    · cases hlc : lookupLast t "code" <;> cases hls : lookupLast t "state" <;>
        simp [lookupLast, hc, hs, hlc, hls]
    · cases hlc : lookupLast t "code" <;> cases hls : lookupLast t "state" <;>
        simp [lookupLast, hc, hs, hlc, hls]

/-- Unfolding of `from_url_pairs`: the last `code`/`state` occurrences are
kept and handed to `from_callback`; no `code` key means
`MissingAuthorizationCode`. -/
theorem from_url_pairs_spec (pairs : List (String × String)) :
    AuthorizationResponse.from_url_pairs pairs =
      match lookupLast pairs "code" with
      | none => .error .MissingAuthorizationCode
      | some c => .ok (AuthorizationResponse.from_callback c (lookupLast pairs "state")) := by
  unfold AuthorizationResponse.from_url_pairs
  rw [from_url_scan]
  cases lookupLast pairs "code" <;> cases lookupLast pairs "state" <;> rfl

theorem lookupLast_eq_none_iff (l : List (String × String)) (k : String) :
    lookupLast l k = none ↔ k ∉ keysOf l := by
  induction l with
  | nil => simp [lookupLast, keysOf]
  | cons kv t ih =>
    simp only [lookupLast, keysOf, List.map_cons, List.mem_cons]
    cases hl : lookupLast t k with
    | some v =>
      simp only []
      constructor
      · intro h; cases h
      · intro h
        exact absurd (ih.mpr (fun hc => h (Or.inr (by simpa [keysOf] using hc)))) (by simp [hl])
    | none =>
      have ht := ih.mp hl
      by_cases hk : kv.1 = k
      · simp [hk]
      · simp only [beq_iff_eq, hk, if_false]
        constructor
        · intro _ hc
          rcases hc with hc | hc
          · exact hk hc.symm
          · exact ht (by simpa [keysOf] using hc)
        · intro _; trivial

/-! ## C9 and C10 -/

/-- C9: `from_callback` splits a `code` containing `#` at its first `#`
into code and state parts only when no explicit state was supplied; with an
explicit state the code is kept verbatim (explicit parameter wins). -/
theorem c9_from_callback_split (code : String) (stateOpt : Option String) :
    (∀ s, stateOpt = some s →
      AuthorizationResponse.from_callback code stateOpt = ⟨code, some s⟩) ∧
    (stateOpt = none → '#' ∉ code.data →
      AuthorizationResponse.from_callback code stateOpt = ⟨code, none⟩) ∧
    (stateOpt = none → '#' ∈ code.data →
      ∃ pre post, code.data = pre ++ '#' :: post ∧ '#' ∉ pre ∧
        AuthorizationResponse.from_callback code stateOpt =
          ⟨String.mk pre, some (String.mk post)⟩) := by
  refine ⟨?_, ?_, ?_⟩
  · intro s hs
    subst hs
    rfl
  · intro hnone hmem
    subst hnone
    simp [AuthorizationResponse.from_callback, splitOnceChar_eq_none hmem]
  · intro hnone hmem
    subst hnone
    obtain ⟨pre, post, hsplit, hpre, heq⟩ := splitOnceChar_spec hmem
    exact ⟨pre, post, hsplit, hpre, by
      simp [AuthorizationResponse.from_callback, heq]⟩

/-- C9 witness: an explicit state keeps `a#b` verbatim; without one,
`abc#x` splits at the `#`. -/
theorem c9_witness :
    AuthorizationResponse.from_callback "a#b" (some "s") = ⟨"a#b", some "s"⟩ ∧
    (∃ pre post, "abc#x".data = pre ++ '#' :: post ∧ '#' ∉ pre ∧
      AuthorizationResponse.from_callback "abc#x" none =
        ⟨String.mk pre, some (String.mk post)⟩) :=
  ⟨(c9_from_callback_split "a#b" (some "s")).1 "s" rfl,
   (c9_from_callback_split "abc#x" none).2.2 rfl (by decide)⟩

/-- C10: `from_url` keeps the last occurrence of duplicated `code`/`state`
query parameters (later duplicates overwrite earlier ones) and returns
`MissingAuthorizationCode` exactly when no `code` parameter is present. -/
theorem c10_from_url_last_wins (pairs : List (String × String)) :
    (AuthorizationResponse.from_url_pairs pairs =
      match lookupLast pairs "code" with
      | none => .error .MissingAuthorizationCode
      | some c => .ok (AuthorizationResponse.from_callback c (lookupLast pairs "state"))) ∧
    (AuthorizationResponse.from_url_pairs pairs = .error .MissingAuthorizationCode ↔
      "code" ∉ keysOf pairs) := by
  refine ⟨from_url_pairs_spec pairs, ?_⟩
  rw [from_url_pairs_spec pairs, ← lookupLast_eq_none_iff]
  cases lookupLast pairs "code" <;> simp

/-! ## C3: authorization URL parameters -/

/-- The seven fixed protocol fields, in the insertion order of
`authorization_url_with_state`. -/
def fixedProtocolFields (cfg : OAuthClientConfig) (p : ProviderDescriptor)
    (pkce : PkcePair) (stateOpt : Option String) : Params :=
  [("response_type", "code"),
   ("client_id", cfg.client_id),
   ("redirect_uri", cfg.redirect_uri),
   ("scope", cfg.scope.getD p.default_scope),
   ("code_challenge", pkce.code_challenge),
   ("code_challenge_method", "S256"),
   ("state", stateOpt.getD pkce.code_verifier)]

theorem authorizationQueryPairs_as_insertAll (p : ProviderDescriptor)
    (cfg : OAuthClientConfig) (pkce : PkcePair) (stateOpt : Option String) :
    authorizationQueryPairs p cfg pkce stateOpt =
      insertAll (insertAll (insertAll [] p.authorize_params) cfg.authorize_params)
        (fixedProtocolFields cfg p pkce stateOpt) := rfl

theorem keysNodup_nil : KeysNodup [] := by simp [KeysNodup, keysOf]

theorem authorizationQueryPairs_nodup (p : ProviderDescriptor) (cfg : OAuthClientConfig)
    (pkce : PkcePair) (stateOpt : Option String) :
    KeysNodup (authorizationQueryPairs p cfg pkce stateOpt) := by
  rw [authorizationQueryPairs_as_insertAll]
  exact keysNodup_insertAll (keysNodup_insertAll (keysNodup_insertAll keysNodup_nil _) _) _

/-- C3: the produced query-parameter set binds each of the seven protocol
parameters exactly once, with the fixed values (`response_type=code`,
`code_challenge_method=S256`, the config's client id and redirect URI, the
resolved scope, the PKCE challenge, the resolved state); neither built-in
provider's authorize URL carries a query of its own; and with no explicit
state the returned request's state is the PKCE verifier. -/
theorem c3_authorization_url_params (p : ProviderDescriptor) (cfg : OAuthClientConfig)
    (pkce : PkcePair) (stateOpt : Option String) :
    (countKey (authorizationQueryPairs p cfg pkce stateOpt) "response_type" = 1 ∧
     lookupParam (authorizationQueryPairs p cfg pkce stateOpt) "response_type" = some "code") ∧
    (countKey (authorizationQueryPairs p cfg pkce stateOpt) "client_id" = 1 ∧
     lookupParam (authorizationQueryPairs p cfg pkce stateOpt) "client_id" = some cfg.client_id) ∧
    (countKey (authorizationQueryPairs p cfg pkce stateOpt) "redirect_uri" = 1 ∧
     lookupParam (authorizationQueryPairs p cfg pkce stateOpt) "redirect_uri" =
       some cfg.redirect_uri) ∧
    (countKey (authorizationQueryPairs p cfg pkce stateOpt) "scope" = 1 ∧
     lookupParam (authorizationQueryPairs p cfg pkce stateOpt) "scope" =
       some (cfg.scope.getD p.default_scope)) ∧
    (countKey (authorizationQueryPairs p cfg pkce stateOpt) "code_challenge" = 1 ∧
     lookupParam (authorizationQueryPairs p cfg pkce stateOpt) "code_challenge" =
       some pkce.code_challenge) ∧
    (countKey (authorizationQueryPairs p cfg pkce stateOpt) "code_challenge_method" = 1 ∧
     lookupParam (authorizationQueryPairs p cfg pkce stateOpt) "code_challenge_method" =
       some "S256") ∧
    (countKey (authorizationQueryPairs p cfg pkce stateOpt) "state" = 1 ∧
     lookupParam (authorizationQueryPairs p cfg pkce stateOpt) "state" =
       some (stateOpt.getD pkce.code_verifier)) ∧
    ('?' ∉ anthropicProvider.authorize_url.data ∧
     ∀ o, '?' ∉ (openAIProvider o).authorize_url.data) ∧
    (authorization_url_with_state p cfg pkce none).state = pkce.code_verifier := by
  have hnodup := authorizationQueryPairs_nodup p cfg pkce stateOpt
  have hcount : ∀ k v, lookupParam (authorizationQueryPairs p cfg pkce stateOpt) k = some v →
      countKey (authorizationQueryPairs p cfg pkce stateOpt) k = 1 := by
    intro k v h
    rw [countKey_of_nodup hnodup, h]
    rfl
  have hlook : ∀ k, lookupParam (authorizationQueryPairs p cfg pkce stateOpt) k =
      match lookupLast (fixedProtocolFields cfg p pkce stateOpt) k with
      | some v => some v
      | none =>
        lookupParam (insertAll (insertAll [] p.authorize_params) cfg.authorize_params) k := by
    intro k
    rw [authorizationQueryPairs_as_insertAll, lookupParam_insertAll]
  have h1 : lookupParam (authorizationQueryPairs p cfg pkce stateOpt) "response_type" =
      some "code" := by rw [hlook]; simp [fixedProtocolFields, lookupLast]
  have h2 : lookupParam (authorizationQueryPairs p cfg pkce stateOpt) "client_id" =
      some cfg.client_id := by rw [hlook]; simp [fixedProtocolFields, lookupLast]
  have h3 : lookupParam (authorizationQueryPairs p cfg pkce stateOpt) "redirect_uri" =
      some cfg.redirect_uri := by rw [hlook]; simp [fixedProtocolFields, lookupLast]
  have h4 : lookupParam (authorizationQueryPairs p cfg pkce stateOpt) "scope" =
      some (cfg.scope.getD p.default_scope) := by
    rw [hlook]; simp [fixedProtocolFields, lookupLast]
  have h5 : lookupParam (authorizationQueryPairs p cfg pkce stateOpt) "code_challenge" =
      some pkce.code_challenge := by rw [hlook]; simp [fixedProtocolFields, lookupLast]
  have h6 : lookupParam (authorizationQueryPairs p cfg pkce stateOpt) "code_challenge_method" =
      some "S256" := by rw [hlook]; simp [fixedProtocolFields, lookupLast]
  have h7 : lookupParam (authorizationQueryPairs p cfg pkce stateOpt) "state" =
      some (stateOpt.getD pkce.code_verifier) := by
    rw [hlook]; simp [fixedProtocolFields, lookupLast]
  refine ⟨⟨hcount _ _ h1, h1⟩, ⟨hcount _ _ h2, h2⟩, ⟨hcount _ _ h3, h3⟩,
    ⟨hcount _ _ h4, h4⟩, ⟨hcount _ _ h5, h5⟩, ⟨hcount _ _ h6, h6⟩, ⟨hcount _ _ h7, h7⟩,
    ⟨by decide, fun o => by
      show '?' ∉ ("https://auth.openai.com/oauth/authorize" : String).data
      decide⟩, rfl⟩

/-! ## C7: provider/config extra-parameter precedence -/

/-- A provider whose extra authorize parameter keys collide with a fixed
protocol field, exhibiting that such a parameter does not pass through. -/
def c7Provider : ProviderDescriptor :=
  { id := "p"
    authorize_url := "https://example.com/authorize"
    token_url := "https://example.com/token"
    default_scope := "s"
    authorize_params := [("state", "prov")] }

def c7Config : OAuthClientConfig :=
  { client_id := "cid", redirect_uri := "http://localhost:1/cb" }

/-- C7 counterexample: `c7Provider` carries the extra authorize parameter
`state=prov`, the config carries no extra params at all (so there is no
config collision), yet the output binds `state` to the PKCE verifier, not
to `prov` — the provider param does not pass through unchanged, because the
seven fixed protocol fields are applied after both overlay stages. -/
theorem c7_counterexample :
    lookupParam (authorizationQueryPairs c7Provider c7Config
      ⟨"ver", "chal"⟩ none) "state" = some "ver" ∧ "ver" ≠ "prov" :=
  ⟨by decide, by decide⟩

def fixedProtocolKeys : List String :=
  ["response_type", "client_id", "redirect_uri", "scope", "code_challenge",
   "code_challenge_method", "state"]

theorem keysOf_fixedProtocolFields (cfg : OAuthClientConfig) (p : ProviderDescriptor)
    (pkce : PkcePair) (stateOpt : Option String) :
    keysOf (fixedProtocolFields cfg p pkce stateOpt) = fixedProtocolKeys := rfl

/-- C7 (amended): provider extras are applied before config extras in both
parameter sets, so the config's (last) value wins on a key collision; a
provider param with no config collision passes through unchanged into the
token payload, and into the authorization set whenever its key is not one
of the seven fixed protocol fields, which are applied last and override
both overlay stages. -/
theorem c7_params_precedence_amended (p : ProviderDescriptor) (cfg : OAuthClientConfig)
    (pkce : PkcePair) (stateOpt : Option String) (payload : Params) (k v : String) :
    (lookupLast cfg.token_params k = some v →
      lookupParam (send_token_payload p cfg payload) k = some v) ∧
    (lookupLast cfg.token_params k = none → lookupLast p.token_params k = some v →
      lookupParam (send_token_payload p cfg payload) k = some v) ∧
    (k ∉ fixedProtocolKeys → lookupLast cfg.authorize_params k = some v →
      lookupParam (authorizationQueryPairs p cfg pkce stateOpt) k = some v) ∧
    (k ∉ fixedProtocolKeys → lookupLast cfg.authorize_params k = none →
      lookupLast p.authorize_params k = some v →
      lookupParam (authorizationQueryPairs p cfg pkce stateOpt) k = some v) := by
  have hfixed : k ∉ fixedProtocolKeys →
      lookupLast (fixedProtocolFields cfg p pkce stateOpt) k = none := by
    intro hk
    exact (lookupLast_eq_none_iff _ _).mpr
      (by rw [keysOf_fixedProtocolFields]; exact hk)
  refine ⟨?_, ?_, ?_, ?_⟩
  · intro hcfg
    rw [send_token_payload, lookupParam_insertAll, hcfg]
  · intro hcfg hprov
    rw [send_token_payload, lookupParam_insertAll, hcfg, lookupParam_insertAll, hprov]
  · intro hk hcfg
    rw [authorizationQueryPairs_as_insertAll, lookupParam_insertAll, hfixed hk,
      lookupParam_insertAll, hcfg]
  · intro hk hcfg hprov
    rw [authorizationQueryPairs_as_insertAll, lookupParam_insertAll, hfixed hk,
      lookupParam_insertAll, hcfg, lookupParam_insertAll, hprov]

/-- C7 witness: with provider token param `a=p1` and config token param
`a=c1` the config wins; provider token param `b=p2` with no config
collision passes through. -/
theorem c7_witness :
    lookupParam (send_token_payload
      { id := "p", authorize_url := "u", token_url := "t", default_scope := "s",
        token_params := [("a", "p1"), ("b", "p2")] }
      { client_id := "cid", redirect_uri := "r", token_params := [("a", "c1")] }
      []) "a" = some "c1" ∧
    lookupParam (send_token_payload
      { id := "p", authorize_url := "u", token_url := "t", default_scope := "s",
        token_params := [("a", "p1"), ("b", "p2")] }
      { client_id := "cid", redirect_uri := "r", token_params := [("a", "c1")] }
      []) "b" = some "p2" :=
  ⟨(c7_params_precedence_amended _ _ ⟨"x", "y"⟩ none _ "a" "c1").1 (by decide),
   (c7_params_precedence_amended _ _ ⟨"x", "y"⟩ none _ "b" "p2").2.1 (by decide) (by decide)⟩

/-! ## C5: state verification in `exchange_code` -/

theorem exchangePayloadBase_state_lookup (cfg : OAuthClientConfig) (code verifier : String)
    (returnedState expectedState : Option String) :
    lookupParam (exchangePayloadBase cfg code verifier returnedState expectedState) "state" =
      (match returnedState with | some s => some s | none => expectedState) := by
  unfold exchangePayloadBase
  cases returnedState with
  | some s => cases cfg.client_secret <;> simp [lookupParam_insertParam_self]
  | none =>
    cases expectedState with
    | some s => cases cfg.client_secret <;> simp [lookupParam_insertParam_self]
    | none => cases cfg.client_secret <;> simp [insertParam, lookupParam]

/-- C5: `exchange_code` fails with `StateMismatch` exactly when both the
expected state and the response state are present and differ; otherwise it
proceeds, and the built payload's `state` field is the response state when
present, else the expected state when available, else absent. -/
theorem c5_exchange_state_check (cfg : OAuthClientConfig) (resp : AuthorizationResponse)
    (verifier : String) (expectedState : Option String) :
    ((∃ e r, exchange_code cfg resp verifier expectedState = .error (.StateMismatch e r)) ↔
      (∃ e r, expectedState = some e ∧ resp.state = some r ∧ e ≠ r)) ∧
    (∀ payload, exchange_code cfg resp verifier expectedState = .ok payload →
      lookupParam payload "state" =
        (match resp.state with | some s => some s | none => expectedState)) ∧
    ((¬ ∃ e r, expectedState = some e ∧ resp.state = some r ∧ e ≠ r) →
      ∃ payload, exchange_code cfg resp verifier expectedState = .ok payload) := by
  obtain ⟨rcode, rstate⟩ := resp
  cases expectedState with
  | none =>
    cases rstate with
    | none =>
      refine ⟨⟨?_, ?_⟩, ?_, fun _ => ⟨_, rfl⟩⟩
      · rintro ⟨e, r, herr⟩
        exact absurd herr (by simp [exchange_code])
      · rintro ⟨e, r, he, -, -⟩
        exact Option.noConfusion he
      · intro payload hok
        injection hok with h
        rw [← h, exchangePayloadBase_state_lookup]
    | some r' =>
      refine ⟨⟨?_, ?_⟩, ?_, fun _ => ⟨_, rfl⟩⟩
      · rintro ⟨e, r, herr⟩
        exact absurd herr (by simp [exchange_code])
      · rintro ⟨e, r, he, -, -⟩
        exact Option.noConfusion he
      · intro payload hok
        injection hok with h
        rw [← h, exchangePayloadBase_state_lookup]
  | some e' =>
    cases rstate with
    | none =>
      refine ⟨⟨?_, ?_⟩, ?_, fun _ => ⟨_, rfl⟩⟩
      · rintro ⟨e, r, herr⟩
        exact absurd herr (by simp [exchange_code])
      · rintro ⟨e, r, -, hr, -⟩
        exact Option.noConfusion hr
      · intro payload hok
        injection hok with h
        rw [← h, exchangePayloadBase_state_lookup]
    | some r' =>
      by_cases hne : e' ≠ r'
      · refine ⟨⟨?_, ?_⟩, ?_, ?_⟩
        · intro _
          exact ⟨e', r', rfl, rfl, hne⟩
        · intro _
          refine ⟨e', r', ?_⟩
          show (if e' ≠ r' then Except.error (OAuthError.StateMismatch e' r')
            else Except.ok (exchangePayloadBase cfg rcode verifier (some r') (some e'))) = _
          rw [if_pos hne]
        · intro payload hok
          have : (if e' ≠ r' then Except.error (OAuthError.StateMismatch e' r')
              else Except.ok (exchangePayloadBase cfg rcode verifier (some r') (some e'))) =
              Except.ok payload := hok
          rw [if_pos hne] at this
          exact absurd this (by simp)
        · intro hno
          exact absurd ⟨e', r', rfl, rfl, hne⟩ hno
      · refine ⟨⟨?_, ?_⟩, ?_, fun _ => ?_⟩
        · rintro ⟨e, r, herr⟩
          have : (if e' ≠ r' then Except.error (OAuthError.StateMismatch e' r')
              else Except.ok (exchangePayloadBase cfg rcode verifier (some r') (some e'))) =
              Except.error (OAuthError.StateMismatch e r) := herr
          rw [if_neg hne] at this
          exact absurd this (by simp)
        · rintro ⟨e, r, he, hr, hner⟩
          injection he with he
          injection hr with hr
          subst he
          subst hr
          exact absurd hner hne
        · intro payload hok
          have : (if e' ≠ r' then Except.error (OAuthError.StateMismatch e' r')
              else Except.ok (exchangePayloadBase cfg rcode verifier (some r') (some e'))) =
              Except.ok payload := hok
          rw [if_neg hne] at this
          injection this with h
          rw [← h, exchangePayloadBase_state_lookup]
        · refine ⟨exchangePayloadBase cfg rcode verifier (some r') (some e'), ?_⟩
          show (if e' ≠ r' then Except.error (OAuthError.StateMismatch e' r')
            else Except.ok (exchangePayloadBase cfg rcode verifier (some r') (some e'))) = _
          rw [if_neg hne]

/-- C5 witness: differing states raise `StateMismatch`; equal states
succeed with the response state in the payload. -/
theorem c5_witness :
    (∃ e r, exchange_code { client_id := "cid", redirect_uri := "r" }
      ⟨"code0", some "rstate"⟩ "v" (some "estate") = .error (.StateMismatch e r)) ∧
    (∃ payload, exchange_code { client_id := "cid", redirect_uri := "r" }
      ⟨"code0", some "same"⟩ "v" (some "same") = .ok payload) :=
  ⟨(c5_exchange_state_check { client_id := "cid", redirect_uri := "r" }
      ⟨"code0", some "rstate"⟩ "v" (some "estate")).1.mpr
      ⟨"estate", "rstate", rfl, rfl, by decide⟩,
   (c5_exchange_state_check { client_id := "cid", redirect_uri := "r" }
      ⟨"code0", some "same"⟩ "v" (some "same")).2.2
      (by rintro ⟨e, r, he, hr, hne⟩; injection he; injection hr; simp_all)⟩

/-! ## C6: token-endpoint response dispatch -/

/-- C6: a non-2xx status yields `HttpStatus` carrying the raw body with no
decode attempted; a 2xx body that fails to decode yields `InvalidResponse`
with the body preserved; a 2xx decodable body yields the `TokenResponse` —
and `is2xx` is exactly the 200–299 range `StatusCode::is_success` tests. -/
theorem c6_token_response_dispatch (status : Nat) (body : String) :
    (is2xx status = false →
      send_token_request_result status body = .error (.HttpStatus status body)) ∧
    (is2xx status = true → ∀ m, decodeTokenBody body = .error m →
      send_token_request_result status body = .error (.InvalidResponse m body)) ∧
    (is2xx status = true → ∀ t, decodeTokenBody body = .ok t →
      send_token_request_result status body = .ok t) ∧
    (is2xx status = true ↔ 200 ≤ status ∧ status ≤ 299) := by
  refine ⟨?_, ?_, ?_, ?_⟩
  · intro h
    simp [send_token_request_result, h]
  · intro h m hm
    simp [send_token_request_result, h, hm]
  · intro h t ht
    simp [send_token_request_result, h, ht]
  · simp [is2xx]

/-- C6 witness: a 404 carries its body verbatim; a 200 with an undecodable
body reports `InvalidResponse` with the body preserved; a 200 with a
decodable body yields the token. -/
theorem c6_witness :
    send_token_request_result 404 "oops" = .error (.HttpStatus 404 "oops") ∧
    send_token_request_result 200 "\x7b\x7d" =
      .error (.InvalidResponse "missing field access_token" "\x7b\x7d") ∧
    send_token_request_result 200 "\x7b\"access_token\":\"tok\"\x7d" =
      .ok { access_token := "tok" } :=
  ⟨(c6_token_response_dispatch 404 "oops").1 rfl,
   (c6_token_response_dispatch 200 "\x7b\x7d").2.1 rfl "missing field access_token" rfl,
   (c6_token_response_dispatch 200 "\x7b\"access_token\":\"tok\"\x7d").2.2.1 rfl
     { access_token := "tok" } rfl⟩

/-! ## C8: round-trip of unrecognized token-response fields -/

def objFields : Json → List (String × Json)
  | .obj fields => fields
  | _ => []

theorem find?_none_of_unknown (fields : List (String × Json)) (k : String)
    (hk : tokenKnownFields.contains k = true)
    (hall : fields.all (fun kv => !(tokenKnownFields.contains kv.1)) = true) :
    fields.find? (fun kv => kv.1 == k) = none := by
  induction fields with
  | nil => rfl
  | cons kv t ih =>
    simp only [List.all_cons, Bool.and_eq_true, Bool.not_eq_true'] at hall
    have hne : (kv.1 == k) = false := by
      refine beq_eq_false_iff_ne.mpr ?_
      intro hc
      rw [hc] at hall
      rw [hk] at hall
      exact absurd hall.1 (by decide)
    rw [List.find?_cons, hne]
    exact ih (by simpa using hall.2)

/-- C8: deserializing an object with the required `access_token` plus
arbitrary fields outside the known schema puts every unrecognized field in
the extension map, and re-serializing reproduces those fields unchanged. -/
theorem c8_token_roundtrip (a : String) (extraFields : List (String × Json))
    (hall : extraFields.all (fun kv => !(tokenKnownFields.contains kv.1)) = true) :
    tokenResponseFromJson (.obj (("access_token", .str a) :: extraFields)) =
      .ok { access_token := a, extra := extraFields } ∧
    tokenResponseToJson { access_token := a, extra := extraFields } =
      .obj ([("access_token", .str a), ("refresh_token", .null), ("token_type", .null),
             ("scope", .null), ("expires_in", .null)] ++ extraFields) ∧
    ∀ kv ∈ extraFields,
      kv ∈ objFields (tokenResponseToJson { access_token := a, extra := extraFields }) := by
  have hlk : ∀ k, tokenKnownFields.contains k = true → k ≠ "access_token" →
      lookupField (("access_token", .str a) :: extraFields) k = none := by
    intro k hk hne
    unfold lookupField
    rw [List.find?_cons]
    have : (("access_token", Json.str a).1 == k) = false :=
      beq_eq_false_iff_ne.mpr (fun hc => hne hc.symm)
    rw [this, find?_none_of_unknown extraFields k hk hall]
    rfl
  have hacc : lookupField (("access_token", .str a) :: extraFields) "access_token" =
      some (.str a) := by
    unfold lookupField
    rw [List.find?_cons]
    rfl
  have hfilter : (("access_token", Json.str a) :: extraFields).filter
      (fun kv => !(tokenKnownFields.contains kv.1)) = extraFields := by
    rw [List.filter_cons]
    have : (!(tokenKnownFields.contains ("access_token", Json.str a).1)) = false := by
      show (!(tokenKnownFields.contains "access_token")) = false
      decide
    rw [this]
    simp only [Bool.false_eq_true, if_false]
    exact List.filter_eq_self.mpr (fun kv hkv => by
      have := List.all_eq_true.mp hall kv hkv
      simpa using this)
  refine ⟨?_, rfl, ?_⟩
  · unfold tokenResponseFromJson
    dsimp only
    rw [hacc, hlk "refresh_token" (by decide) (by decide),
      hlk "token_type" (by decide) (by decide), hlk "scope" (by decide) (by decide),
      hlk "expires_in" (by decide) (by decide), hfilter]
    rfl
  · intro kv hkv
    simp only [tokenResponseToJson, objFields]
    exact List.mem_append_right _ hkv

/-- C8 witness: `foo` survives deserialization into `extra` and reappears
in the re-serialized object. -/
theorem c8_witness :
    tokenResponseFromJson (.obj [("access_token", .str "tok"), ("foo", .str "bar")]) =
      .ok { access_token := "tok", extra := [("foo", .str "bar")] } ∧
    ("foo", Json.str "bar") ∈ objFields (tokenResponseToJson
      { access_token := "tok", extra := [("foo", .str "bar")] }) :=
  ⟨(c8_token_roundtrip "tok" [("foo", .str "bar")] rfl).1,
   (c8_token_roundtrip "tok" [("foo", .str "bar")] rfl).2.2 ("foo", .str "bar")
     (List.mem_singleton.mpr rfl)⟩

/-! ## C4: PKCE invariants -/

theorem b64_no_bad_chars (bs : List Nat) :
    ((base64UrlNoPad bs).data.all
      (fun c => !(c == '=' || c == '+' || c == '/'))) = true := by
  rw [List.all_eq_true]
  intro c hc
  have hmem := b64urlChars_mem bs c hc
  have hok : ∀ c ∈ b64Alphabet, (!(c == '=' || c == '+' || c == '/')) = true := by decide
  exact hok c hmem

/-- C4 counterexample: `PkcePair::from_verifier` keeps a caller-supplied
verifier verbatim, so `from_verifier("+")` yields a `code_verifier` that
does contain `'+'`, contradicting the claim's extension of the alphabet
invariant to `from_verifier(v)` for every `v`. -/
theorem c4_counterexample :
    '+' ∈ (PkcePair.from_verifier "+").code_verifier.data := by decide

/-- C4 (amended): for every verifier string the derived challenge equals
base64url-no-pad of SHA-256 of the verifier and never contains `=`, `+` or
`/`; for every pair produced by `generate` both the verifier and the
challenge additionally satisfy the alphabet invariant (the verifier being
itself a base64url encoding).  `from_verifier(v)` keeps `v` verbatim, so
its verifier satisfies the invariant exactly when `v` does. -/
theorem c4_pkce_amended (v : String) (seed : List Nat) :
    (PkcePair.from_verifier v).code_challenge =
      base64UrlNoPad (Sha256.hash (strBytes v)) ∧
    ((PkcePair.from_verifier v).code_challenge.data.all
      (fun c => !(c == '=' || c == '+' || c == '/'))) = true ∧
    (PkcePair.from_verifier v).code_verifier = v ∧
    (PkcePair.generate seed).code_challenge =
      base64UrlNoPad (Sha256.hash (strBytes (PkcePair.generate seed).code_verifier)) ∧
    ((PkcePair.generate seed).code_verifier.data.all
      (fun c => !(c == '=' || c == '+' || c == '/'))) = true ∧
    ((PkcePair.generate seed).code_challenge.data.all
      (fun c => !(c == '=' || c == '+' || c == '/'))) = true :=
  ⟨rfl, b64_no_bad_chars _, rfl, rfl, b64_no_bad_chars _, b64_no_bad_chars _⟩

/-! ## C1: request dispatch and exactly-once completion of `listen` -/

/-- C1: for every configured target, a non-GET request is answered 405, a
GET off the configured path is answered 404, a GET on the path without a
`code` query parameter is answered 400 — all three leaving the server
listening — and a `listen` call returns exactly the response of the first
request that parses to a valid callback, never touching later requests. -/
theorem c1_local_server_requests (t : RedirectTarget) :
    (∀ req, req ≠ "" → reqMethod req ≠ "GET" →
      handle_request t req = (some "405 Method Not Allowed", .ok none)) ∧
    (∀ req, req ≠ "" → reqMethod req = "GET" → reqPath req ≠ t.path →
      handle_request t req = (some "404 Not Found", .ok none)) ∧
    (∀ req, req ≠ "" → reqMethod req = "GET" → reqPath req = t.path →
      "code" ∉ keysOf (parseQueryPairs (reqQuery req)) →
      handle_request t req = (some "400 Bad Request", .ok none)) ∧
    (∀ pre r rest resp, (∀ q ∈ pre, (handle_request t q).2 = .ok none) →
      (handle_request t r).2 = .ok (some resp) →
      listen_blocking t (pre ++ r :: rest) = .ok (some resp)) := by
  refine ⟨?_, ?_, ?_, ?_⟩
  · intro req h1 h2
    simp [handle_request, h1, h2]
  · intro req h1 h2 h3
    simp [handle_request, h1, h2, h3]
  · intro req h1 h2 h3 h4
    have herr : AuthorizationResponse.from_url_pairs (parseQueryPairs (reqQuery req)) =
        .error .MissingAuthorizationCode := by
      rw [from_url_pairs_spec, (lookupLast_eq_none_iff _ _).mpr h4]
    simp [handle_request, h1, h2, h3, herr]
  · intro pre r rest resp hpre hr
    induction pre with
    | nil => simp [listen_blocking, hr]
    | cons q pre' ih =>
      have hq := hpre q (List.mem_cons_self q pre')
      simp only [List.cons_append, listen_blocking, hq]
      exact ih (fun q' hq' => hpre q' (List.mem_cons_of_mem q hq'))

def witnessTarget : RedirectTarget := ⟨"http", "localhost", 8765, "/callback"⟩

/-- C1 witness: a POST, a wrong path and a codeless GET are answered
405/404/400 without completing, and the listen call over those three
followed by a valid callback (and one more request it never reads) returns
the first valid callback's response. -/
theorem c1_witness :
    handle_request witnessTarget "POST /callback HTTP/1.1" =
      (some "405 Method Not Allowed", .ok none) ∧
    handle_request witnessTarget "GET /wrong HTTP/1.1" =
      (some "404 Not Found", .ok none) ∧
    handle_request witnessTarget "GET /callback?state=s HTTP/1.1" =
      (some "400 Bad Request", .ok none) ∧
    listen_blocking witnessTarget
      ["POST /callback HTTP/1.1", "GET /wrong HTTP/1.1", "GET /callback?state=s HTTP/1.1",
       "GET /callback?code=abc&state=xyz HTTP/1.1", "GET /callback?code=zzz HTTP/1.1"] =
      .ok (some ⟨"abc", some "xyz"⟩) := by
  refine ⟨(c1_local_server_requests witnessTarget).1 _ (by decide) (by decide),
    (c1_local_server_requests witnessTarget).2.1 _ (by decide) (by decide) (by decide),
    (c1_local_server_requests witnessTarget).2.2.1 _ (by decide) (by decide) (by decide)
      (by decide),
    (c1_local_server_requests witnessTarget).2.2.2
      ["POST /callback HTTP/1.1", "GET /wrong HTTP/1.1", "GET /callback?state=s HTTP/1.1"]
      "GET /callback?code=abc&state=xyz HTTP/1.1"
      ["GET /callback?code=zzz HTTP/1.1"]
      ⟨"abc", some "xyz"⟩ ?_ rfl⟩
  intro q hq
  fin_cases hq <;> rfl

/-! ## C2: deadline behavior of the polling listener -/

theorem listen_poll_returns_timeout (t : RedirectTarget) (timeout : Nat)
    (supply : Nat → AcceptOutcome) (N : Nat)
    (hbenign : ∀ i req, supply i = .conn req → (handle_request t req).2 = .ok none)
    (hquiet : ∀ i, N ≤ i → supply i = .wouldBlock) :
    ∀ fuel now idx, now < timeout + 50 →
      (N - idx) + (timeout - now + 49) / 50 + 1 ≤ fuel →
      ∃ endTime, listen_poll t timeout supply fuel now idx =
        (.error (.LocalServerTimeout timeout), endTime) ∧
        timeout ≤ endTime ∧ endTime < timeout + 50 := by
  intro fuel
  induction fuel with
  | zero => intro now idx _ hfuel; omega
  | succ f ih =>
    intro now idx hinv hfuel
    by_cases hnow : timeout ≤ now
    · exact ⟨now, by simp [listen_poll, hnow], hnow, hinv⟩
    · cases hsup : supply idx with
      | wouldBlock =>
        obtain ⟨endT, heq, h1, h2⟩ := ih (now + 50) (idx + 1) (by omega) (by omega)
        refine ⟨endT, ?_, h1, h2⟩
        simp only [listen_poll, pollIntervalMs]
        rw [if_neg hnow, hsup]
        exact heq
      | conn req =>
        have hidx : idx < N := by
          by_contra hge
          have := hquiet idx (by omega)
          rw [hsup] at this
          exact AcceptOutcome.noConfusion this
        have hh := hbenign idx req hsup
        obtain ⟨endT, heq, h1, h2⟩ := ih now (idx + 1) hinv (by omega)
        refine ⟨endT, ?_, h1, h2⟩
        simp only [listen_poll, pollIntervalMs]
        rw [if_neg hnow, hsup]
        simp only [if_neg hnow, hh]
        exact heq

/-- C2: with a timeout configured, if every connection that arrives is
handled without completing a callback and without a fatal error, and only
finitely many connections arrive (`supply` is `WouldBlock` from index `N`
on), the poll loop returns `LocalServerTimeout{timeout}`, at a wall-clock
time at least the deadline and overshooting it by less than one 50 ms poll
interval; the given fuel shows the loop also re-checks the deadline only on
that bounded cadence (at most `N + timeout/50 + 1` iterations). -/
theorem c2_listen_timeout (t : RedirectTarget) (timeout : Nat)
    (supply : Nat → AcceptOutcome) (N : Nat)
    (hbenign : ∀ i req, supply i = .conn req → (handle_request t req).2 = .ok none)
    (hquiet : ∀ i, N ≤ i → supply i = .wouldBlock) :
    (listen_poll t timeout supply (N + (timeout + 49) / 50 + 1) 0 0).1 =
      .error (.LocalServerTimeout timeout) ∧
    timeout ≤ (listen_poll t timeout supply (N + (timeout + 49) / 50 + 1) 0 0).2 ∧
    (listen_poll t timeout supply (N + (timeout + 49) / 50 + 1) 0 0).2 <
      timeout + pollIntervalMs := by
  obtain ⟨endT, heq, h1, h2⟩ :=
    listen_poll_returns_timeout t timeout supply N hbenign hquiet
      (N + (timeout + 49) / 50 + 1) 0 0 (by omega) (by omega)
  rw [heq]
  exact ⟨rfl, h1, h2⟩

/-- C2 witness: timeout 120 ms, one early non-completing connection, then
silence: the loop times out between 120 and 170 ms. -/
theorem c2_witness :
    (listen_poll witnessTarget 120
      (fun i => if i == 0 then .conn "GET /callback HTTP/1.1" else .wouldBlock)
      (1 + (120 + 49) / 50 + 1) 0 0).1 = .error (.LocalServerTimeout 120) ∧
    120 ≤ (listen_poll witnessTarget 120
      (fun i => if i == 0 then .conn "GET /callback HTTP/1.1" else .wouldBlock)
      (1 + (120 + 49) / 50 + 1) 0 0).2 ∧
    (listen_poll witnessTarget 120
      (fun i => if i == 0 then .conn "GET /callback HTTP/1.1" else .wouldBlock)
      (1 + (120 + 49) / 50 + 1) 0 0).2 < 120 + pollIntervalMs := by
  refine c2_listen_timeout witnessTarget 120 _ 1 ?_ ?_
  · intro i req h
    by_cases hi : i = 0
    · subst hi
      have h' : AcceptOutcome.conn "GET /callback HTTP/1.1" = .conn req := h
      cases h'
      rfl
    · have hne : (i == 0) = false := beq_eq_false_iff_ne.mpr hi
      rw [hne] at h
      simp at h
  · intro i hi
    have hne : (i == 0) = false := beq_eq_false_iff_ne.mpr (by omega)
    simp [hne]

end AiConnect
